import Mathlib

/-!
# ZULON runtime (`zulon_entry.c`): reference counting and integer printing

A shallow embedding of the reference-counting allocator
(`zulon_ref_inc`, `zulon_ref_dec`, `zulon_arc_alloc`) and of `zulon_print_i32`.

Conventions of the embedding:

* `int` / `int32_t` is a 32-bit two's complement integer: a value is an `Int`
  in `[-2^31, 2^31)` and the result of `++`, `--` and unary `-` is brought back
  into that range by `wrapInt32`.  C leaves signed overflow undefined; the
  wrap-around is what the compiled increment, decrement and negation do on
  the two's complement targets of the runtime.  Whatever is stored, a count
  read from memory is a 32-bit value (`loadInt_bounds`).
  `size_t` is a 64-bit unsigned integer: sums are taken modulo `2^64`.
* Memory is a map from addresses to bytes.  An `int` is stored in four
  consecutive bytes, least significant first.
* The host allocator (`malloc` / `free`) is an external collaborator.  Its
  answer to a `malloc` request is an argument of the model (`0` is `NULL`);
  the heap records which blocks are currently handed out and the list of
  host calls made so far.  `free` does not change any memory byte.
* Addresses are natural numbers, `NULL` is `0`.
-/

namespace Zulon

/-! ## Machine integers -/

/-- Smallest `int` value. -/
def INT_MIN : Int := -2147483648

/-- Largest `int` value. -/
def INT_MAX : Int := 2147483647

/-- Value of `sizeof(int)`. -/
def SIZEOF_INT : Nat := 4

/-- Number of values of `size_t`. -/
def SIZE_MODULUS : Nat := 18446744073709551616

/-- Two's complement reduction of an integer to the range of `int`. -/
def wrapInt32 (v : Int) : Int := (v + 2147483648) % 4294967296 - 2147483648

/-! ## Memory -/

/-- Read the `int` stored at address `a` (four bytes, least significant first). -/
def loadInt (m : Nat → Nat) (a : Nat) : Int :=
  let u := m a % 256 + 256 * (m (a + 1) % 256) + 65536 * (m (a + 2) % 256)
    + 16777216 * (m (a + 3) % 256)
  if u < 2147483648 then (u : Int) else (u : Int) - 4294967296

/-- Write the `int` value `v` at address `a` (four bytes, least significant first). -/
def storeInt (m : Nat → Nat) (a : Nat) (v : Int) : Nat → Nat :=
  let u := (v % 4294967296).toNat
  fun x =>
    if x = a then u % 256
    else if x = a + 1 then u / 256 % 256
    else if x = a + 2 then u / 65536 % 256
    else if x = a + 3 then u / 16777216 % 256
    else m x

/-! ## Host allocator -/

/-- A call made to the host allocator. -/
inductive HostCall where
  | malloc (size : Nat) (result : Nat)
  | free (addr : Nat)
  deriving DecidableEq, Repr

/-- The heap: memory bytes, the blocks handed out by `malloc` and not yet
given back (address and size), and the host calls made so far, oldest first. -/
structure Heap where
  mem : Nat → Nat
  blocks : List (Nat × Nat)
  calls : List HostCall

/-- The heap before any allocation. -/
def emptyHeap : Heap := { mem := fun _ => 0, blocks := [], calls := [] }

/-- Host `malloc(size)` answering `memory` (`0` for `NULL`). -/
def malloc (s : Heap) (size : Nat) (memory : Nat) : Heap :=
  { mem := s.mem
    blocks := if memory = 0 then s.blocks else (memory, size) :: s.blocks
    calls := s.calls ++ [HostCall.malloc size memory] }

/-- Host `free(p)`: the block at `p` is no longer handed out; no byte changes. -/
def free (s : Heap) (p : Nat) : Heap :=
  { mem := s.mem
    blocks := s.blocks.filter (fun b => b.1 != p)
    calls := s.calls ++ [HostCall.free p] }

/-- The block at address `a` is currently handed out by the host. -/
def isLive (s : Heap) (a : Nat) : Bool := s.blocks.any (fun b => b.1 == a)

/-- Number of `free(a)` calls the host has received. -/
def freeCount (s : Heap) (a : Nat) : Nat := s.calls.count (HostCall.free a)

/-! ## Reference counting (`zulon_entry.c`, lines 286-340) -/

/-- `void zulon_ref_inc(void* ptr)`. -/
def zulon_ref_inc (s : Heap) (ptr : Nat) : Heap :=
  if ptr = 0 then s
  else
    let ref_count := ptr - SIZEOF_INT
    { mem := storeInt s.mem ref_count (wrapInt32 (loadInt s.mem ref_count + 1))
      blocks := s.blocks
      calls := s.calls }

/-- `void zulon_ref_dec(void* ptr)`. -/
def zulon_ref_dec (s : Heap) (ptr : Nat) : Heap :=
  if ptr = 0 then s
  else
    let ref_count := ptr - SIZEOF_INT
    let s1 : Heap :=
      { mem := storeInt s.mem ref_count (wrapInt32 (loadInt s.mem ref_count - 1))
        blocks := s.blocks
        calls := s.calls }
    if loadInt s1.mem ref_count ≤ 0 then free s1 ref_count else s1

/-- `void* zulon_arc_alloc(size_t data_size)`; `memory` is the host's answer to
the `malloc` request.  Returns the pointer handed to the caller and the new heap. -/
def zulon_arc_alloc (s : Heap) (data_size : Nat) (memory : Nat) : Nat × Heap :=
  let total_size := (SIZEOF_INT + data_size) % SIZE_MODULUS
  let s1 := malloc s total_size memory
  if memory = 0 then (0, s1)
  else
    let ref_count := memory
    (memory + SIZEOF_INT,
      { mem := storeInt s1.mem ref_count 1, blocks := s1.blocks, calls := s1.calls })

/-- The size of the `malloc` request made by `zulon_arc_alloc data_size`. -/
def requestedBytes (data_size : Nat) : Nat := (SIZEOF_INT + data_size) % SIZE_MODULUS

/-! ## Integer printing (`zulon_entry.c`, lines 79-117) -/

/-- `void zulon_putchar(char c)`: the character is appended to the output. -/
def zulon_putchar (out : List Char) (c : Char) : List Char := out ++ [c]

/-- The digit character `'0' + d`. -/
def digitChar (d : Int) : Char := Char.ofNat (48 + d.toNat)

/-- The first loop of `zulon_print_i32`: `while (value > 0)`, filling `buffer`
from index `i`; `fuel` bounds the number of iterations. Returns the buffer,
the index and the remaining value. -/
def fillBuffer : Nat → Int → (Nat → Char) → Nat → (Nat → Char) × Nat × Int
  | 0, value, buffer, i => (buffer, i, value)
  | fuel + 1, value, buffer, i =>
    if value > 0 then
      fillBuffer fuel (Int.tdiv value 10)
        (fun k => if k = i then digitChar (Int.tmod value 10) else buffer k) (i + 1)
    else (buffer, i, value)

/-- The second loop of `zulon_print_i32`: `while (i > 0) zulon_putchar(buffer[--i])`. -/
def printBuffer (buffer : Nat → Char) : Nat → List Char → List Char
  | 0, out => out
  | i + 1, out => printBuffer buffer i (zulon_putchar out (buffer i))

/-- `void zulon_print_i32(int32_t value)`.  The buffer has 32 cells, which
bounds the first loop. -/
def zulon_print_i32 (out : List Char) (value : Int) : List Char :=
  let negative := decide (value < 0)
  let value := if value < 0 then wrapInt32 (-value) else value
  if value = 0 then zulon_putchar out '0'
  else
    let r := fillBuffer 32 value (fun _ => '\x00') 0
    let out := if negative then zulon_putchar out '-' else out
    printBuffer r.1 r.2.1 out

/-- `void zulon_println_i32(int32_t value)`. -/
def zulon_println_i32 (out : List Char) (value : Int) : List Char :=
  zulon_putchar (zulon_print_i32 out value) '\n'

/-! ## Call sequences -/

/-- The calls `zulon_ref_inc(ptr)` made `n` times in a row. -/
def retainTimes (s : Heap) (ptr : Nat) : Nat → Heap
  | 0 => s
  | n + 1 => retainTimes (zulon_ref_inc s ptr) ptr n

/-- The calls `zulon_ref_dec(ptr)` made `n` times in a row. -/
def releaseTimes (s : Heap) (ptr : Nat) : Nat → Heap
  | 0 => s
  | n + 1 => releaseTimes (zulon_ref_dec s ptr) ptr n

/-- The heap after `h = zulon_arc_alloc(size)` (answered at `memory`), then `n`
calls `zulon_ref_inc(h)`, then `k` calls `zulon_ref_dec(h)`. -/
def allocRetainRelease (s : Heap) (size memory n k : Nat) : Heap :=
  releaseTimes
    (retainTimes (zulon_arc_alloc s size memory).2 (zulon_arc_alloc s size memory).1 n)
    (zulon_arc_alloc s size memory).1 k

/-- A count-changing call on one fixed handle. -/
inductive Call where
  | retain
  | release
  deriving DecidableEq, Repr

/-- Perform one call on the handle `ptr`. -/
def applyCall (s : Heap) (ptr : Nat) : Call → Heap
  | Call.retain => zulon_ref_inc s ptr
  | Call.release => zulon_ref_dec s ptr

/-- Perform a sequence of calls on the handle `ptr`, first call first. -/
def applyCalls (s : Heap) (ptr : Nat) : List Call → Heap
  | [] => s
  | c :: cs => applyCalls (applyCall s ptr c) ptr cs

/-- Every call of the sequence is made while the block of `ptr` is still handed out. -/
def allLive (s : Heap) (ptr : Nat) : List Call → Bool
  | [] => true
  | c :: cs => isLive s (ptr - SIZEOF_INT) && allLive (applyCall s ptr c) ptr cs

/-- An operation of the allocator; for `alloc` the host's answer is recorded too. -/
inductive Op where
  | alloc (size : Nat) (memory : Nat)
  | retain (h : Nat)
  | release (h : Nat)
  deriving DecidableEq, Repr

/-- Perform one operation. -/
def step (s : Heap) : Op → Heap
  | Op.alloc size memory => (zulon_arc_alloc s size memory).2
  | Op.retain h => zulon_ref_inc s h
  | Op.release h => zulon_ref_dec s h

/-- Perform a sequence of operations, first operation first. -/
def run (s : Heap) : List Op → Heap
  | [] => s
  | op :: ops => run (step s op) ops

/-- Every block handed out lies at an address aligned for `int`. -/
def Aligned (s : Heap) : Prop := ∀ b ∈ s.blocks, b.1 % SIZEOF_INT = 0

/-- Blocks handed out do not overlap: a block at a lower address ends before
the next one starts. -/
def NoOverlap (s : Heap) : Prop :=
  ∀ b ∈ s.blocks, ∀ b' ∈ s.blocks, b.1 < b'.1 → b.1 + b.2 ≤ b'.1

/-- The blocks handed out are laid out as the host allocator guarantees. -/
def WellFormed (s : Heap) : Prop := Aligned s ∧ NoOverlap s

/-- What the host guarantees about a successful `malloc(total)` answering
`memory`: the address is aligned for `int`, differs from the address of every
block currently handed out, and the new region overlaps none of them. -/
def HostFresh (s : Heap) (total : Nat) (memory : Nat) : Prop :=
  memory % SIZEOF_INT = 0 ∧
    ∀ b ∈ s.blocks, b.1 ≠ memory ∧ (memory + total ≤ b.1 ∨ b.1 + b.2 ≤ memory)

/-- The handle `h` is the payload address of a block currently handed out. -/
def LiveHandle (s : Heap) (h : Nat) : Prop :=
  SIZEOF_INT ≤ h ∧ isLive s (h - SIZEOF_INT) = true

/-- The operation respects the calling contract: `alloc` gets a `size_t` and the
host either fails or answers within its guarantees; `retain` and `release`
are applied to live handles only. -/
def Valid (s : Heap) : Op → Prop
  | Op.alloc size memory =>
    size < SIZE_MODULUS ∧ (memory = 0 ∨ HostFresh s (requestedBytes size) memory)
  | Op.retain h => LiveHandle s h
  | Op.release h => LiveHandle s h

/-- Every operation of the sequence respects the calling contract in the state
in which it is performed. -/
def ValidRun (s : Heap) : List Op → Prop
  | [] => True
  | op :: ops => Valid s op ∧ ValidRun (step s op) ops

/-- The operation does not increment a count that is already `INT_MAX`. -/
def NoOverflow (s : Heap) : Op → Prop
  | Op.retain h => loadInt s.mem (h - SIZEOF_INT) < INT_MAX
  | _ => True

/-- No operation of the sequence increments a count that is already `INT_MAX`. -/
def BoundedRun (s : Heap) : List Op → Prop
  | [] => True
  | op :: ops => NoOverflow s op ∧ BoundedRun (step s op) ops

/-- Invariant A on a heap: every block handed out lies at an aligned address
and has a count of at least 1. -/
def CountInvariant (s : Heap) : Prop :=
  Aligned s ∧ ∀ b ∈ s.blocks, 1 ≤ loadInt s.mem b.1

/-- The decimal digits of a natural number, most significant first. -/
def decimalDigits (n : Nat) : List Char := Nat.toDigits 10 n

/-- The decimal representation of an integer: a minus sign for a negative
number, then the digits of the absolute value. -/
def decimalRepr (v : Int) : List Char :=
  if v < 0 then '-' :: decimalDigits v.natAbs else decimalDigits v.natAbs

/-- A heap holding one fresh block: `zulon_arc_alloc(8)` answered at address 16. -/
def oneBlockHeap : Heap := (zulon_arc_alloc emptyHeap 8 16).2

/-! ## Memory lemmas -/

theorem wrapInt32_of_range (v : Int) (h1 : -2147483648 ≤ v) (h2 : v ≤ 2147483647) :
    wrapInt32 v = v := by
  unfold wrapInt32; omega

theorem wrapInt32_bounds (v : Int) : -2147483648 ≤ wrapInt32 v ∧ wrapInt32 v ≤ 2147483647 := by
  unfold wrapInt32; omega

theorem loadInt_bounds (m : Nat → Nat) (a : Nat) :
    -2147483648 ≤ loadInt m a ∧ loadInt m a ≤ 2147483647 := by
  unfold loadInt; simp only; split <;> omega

theorem storeInt_outside (m : Nat → Nat) (a : Nat) (v : Int) (x : Nat)
    (h : x < a ∨ a + 4 ≤ x) : storeInt m a v x = m x := by
  unfold storeInt
  show (if x = a then _ else if x = a + 1 then _ else if x = a + 2 then _
    else if x = a + 3 then _ else m x) = m x
  rw [if_neg (by omega), if_neg (by omega), if_neg (by omega), if_neg (by omega)]

theorem storeInt_byte0 (m : Nat → Nat) (a : Nat) (v : Int) :
    storeInt m a v a = (v % 4294967296).toNat % 256 := by
  simp [storeInt]

theorem storeInt_byte1 (m : Nat → Nat) (a : Nat) (v : Int) :
    storeInt m a v (a + 1) = (v % 4294967296).toNat / 256 % 256 := by
  simp [storeInt]

theorem storeInt_byte2 (m : Nat → Nat) (a : Nat) (v : Int) :
    storeInt m a v (a + 2) = (v % 4294967296).toNat / 65536 % 256 := by
  simp [storeInt]

theorem storeInt_byte3 (m : Nat → Nat) (a : Nat) (v : Int) :
    storeInt m a v (a + 3) = (v % 4294967296).toNat / 16777216 % 256 := by
  simp [storeInt]

theorem loadInt_storeInt_same (m : Nat → Nat) (a : Nat) (v : Int) :
    loadInt (storeInt m a v) a = wrapInt32 v := by
  unfold loadInt
  rw [storeInt_byte0, storeInt_byte1, storeInt_byte2, storeInt_byte3]
  have hu : ((v % 4294967296).toNat : Int) = v % 4294967296 :=
    Int.toNat_of_nonneg (Int.emod_nonneg _ (by norm_num))
  generalize (v % 4294967296).toNat = u at hu
  unfold wrapInt32
  simp only
  split <;> omega

theorem loadInt_congr (m m' : Nat → Nat) (a : Nat)
    (h : ∀ x, a ≤ x → x < a + 4 → m' x = m x) : loadInt m' a = loadInt m a := by
  unfold loadInt
  rw [h a (by omega) (by omega), h (a + 1) (by omega) (by omega),
    h (a + 2) (by omega) (by omega), h (a + 3) (by omega) (by omega)]

theorem loadInt_storeInt_other (m : Nat → Nat) (a b : Nat) (v : Int)
    (h : b + 4 ≤ a ∨ a + 4 ≤ b) : loadInt (storeInt m a v) b = loadInt m b := by
  apply loadInt_congr
  intro x h1 h2
  exact storeInt_outside m a v x (by omega)
/-! ## Effect of the three operations on a handle `a + SIZEOF_INT` -/

theorem handle_sub (a : Nat) : a + SIZEOF_INT - SIZEOF_INT = a := by
  simp

theorem handle_ne_zero (a : Nat) : a + SIZEOF_INT ≠ 0 := by
  simp [SIZEOF_INT]

theorem ref_inc_mem (s : Heap) (a : Nat) :
    (zulon_ref_inc s (a + SIZEOF_INT)).mem
      = storeInt s.mem a (wrapInt32 (loadInt s.mem a + 1)) := by
  simp [zulon_ref_inc, SIZEOF_INT]

theorem ref_inc_blocks (s : Heap) (ptr : Nat) : (zulon_ref_inc s ptr).blocks = s.blocks := by
  unfold zulon_ref_inc
  split <;> rfl

theorem ref_inc_calls (s : Heap) (ptr : Nat) : (zulon_ref_inc s ptr).calls = s.calls := by
  unfold zulon_ref_inc
  split <;> rfl

theorem ref_inc_isLive (s : Heap) (ptr x : Nat) :
    isLive (zulon_ref_inc s ptr) x = isLive s x := by
  simp [isLive, ref_inc_blocks]

theorem ref_inc_count (s : Heap) (a : Nat) :
    loadInt (zulon_ref_inc s (a + SIZEOF_INT)).mem a = wrapInt32 (loadInt s.mem a + 1) := by
  rw [ref_inc_mem, loadInt_storeInt_same, wrapInt32_of_range _ (wrapInt32_bounds _).1
    (wrapInt32_bounds _).2]

theorem ref_dec_mem (s : Heap) (a : Nat) :
    (zulon_ref_dec s (a + SIZEOF_INT)).mem
      = storeInt s.mem a (wrapInt32 (loadInt s.mem a - 1)) := by
  unfold zulon_ref_dec
  rw [if_neg (handle_ne_zero a)]
  simp only [handle_sub]
  split <;> rfl

theorem ref_dec_count (s : Heap) (a : Nat) :
    loadInt (zulon_ref_dec s (a + SIZEOF_INT)).mem a = wrapInt32 (loadInt s.mem a - 1) := by
  rw [ref_dec_mem, loadInt_storeInt_same, wrapInt32_of_range _ (wrapInt32_bounds _).1
    (wrapInt32_bounds _).2]

theorem ref_dec_freed (s : Heap) (a : Nat) (h : wrapInt32 (loadInt s.mem a - 1) ≤ 0) :
    (zulon_ref_dec s (a + SIZEOF_INT)).blocks = s.blocks.filter (fun b => b.1 != a) ∧
      (zulon_ref_dec s (a + SIZEOF_INT)).calls = s.calls ++ [HostCall.free a] := by
  unfold zulon_ref_dec
  rw [if_neg (handle_ne_zero a)]
  simp only [handle_sub]
  rw [loadInt_storeInt_same, wrapInt32_of_range _ (wrapInt32_bounds _).1
    (wrapInt32_bounds _).2, if_pos h]
  exact ⟨rfl, rfl⟩

theorem ref_dec_kept (s : Heap) (a : Nat) (h : 0 < wrapInt32 (loadInt s.mem a - 1)) :
    (zulon_ref_dec s (a + SIZEOF_INT)).blocks = s.blocks ∧
      (zulon_ref_dec s (a + SIZEOF_INT)).calls = s.calls := by
  unfold zulon_ref_dec
  rw [if_neg (handle_ne_zero a)]
  simp only [handle_sub]
  rw [loadInt_storeInt_same, wrapInt32_of_range _ (wrapInt32_bounds _).1
    (wrapInt32_bounds _).2, if_neg (by omega)]
  exact ⟨rfl, rfl⟩

theorem isLive_of_blocks_filter (s s' : Heap) (a : Nat)
    (h : s'.blocks = s.blocks.filter (fun b => b.1 != a)) : isLive s' a = false := by
  simp [isLive, h]

theorem isLive_of_blocks_eq (s s' : Heap) (a : Nat) (h : s'.blocks = s.blocks) :
    isLive s' a = isLive s a := by
  simp [isLive, h]

theorem freeCount_append_free (s s' : Heap) (a : Nat)
    (h : s'.calls = s.calls ++ [HostCall.free a]) : freeCount s' a = freeCount s a + 1 := by
  simp [freeCount, h]

theorem freeCount_of_calls_eq (s s' : Heap) (a : Nat) (h : s'.calls = s.calls) :
    freeCount s' a = freeCount s a := by
  simp [freeCount, h]

theorem arc_alloc_fst (s : Heap) (size memory : Nat) (h : memory ≠ 0) :
    (zulon_arc_alloc s size memory).1 = memory + SIZEOF_INT := by
  simp [zulon_arc_alloc, h]

theorem arc_alloc_mem (s : Heap) (size memory : Nat) (h : memory ≠ 0) :
    (zulon_arc_alloc s size memory).2.mem = storeInt s.mem memory 1 := by
  simp [zulon_arc_alloc, h, malloc]

theorem arc_alloc_blocks (s : Heap) (size memory : Nat) (h : memory ≠ 0) :
    (zulon_arc_alloc s size memory).2.blocks = (memory, requestedBytes size) :: s.blocks := by
  simp [zulon_arc_alloc, h, malloc, requestedBytes]

theorem arc_alloc_calls (s : Heap) (size memory : Nat) :
    (zulon_arc_alloc s size memory).2.calls
      = s.calls ++ [HostCall.malloc (requestedBytes size) memory] := by
  unfold zulon_arc_alloc
  simp only
  split <;> rfl

theorem arc_alloc_count (s : Heap) (size memory : Nat) (h : memory ≠ 0) :
    loadInt (zulon_arc_alloc s size memory).2.mem memory = 1 := by
  rw [arc_alloc_mem s size memory h, loadInt_storeInt_same]
  rfl

theorem arc_alloc_isLive (s : Heap) (size memory : Nat) (h : memory ≠ 0) :
    isLive (zulon_arc_alloc s size memory).2 memory = true := by
  simp [isLive, arc_alloc_blocks s size memory h]

theorem arc_alloc_freeCount (s : Heap) (size memory a : Nat) :
    freeCount (zulon_arc_alloc s size memory).2 a = freeCount s a := by
  simp [freeCount, arc_alloc_calls]

theorem retainTimes_blocks (s : Heap) (ptr n : Nat) :
    (retainTimes s ptr n).blocks = s.blocks := by
  induction n generalizing s with
  | zero => rfl
  | succ n ih => rw [retainTimes, ih, ref_inc_blocks]

theorem retainTimes_calls (s : Heap) (ptr n : Nat) :
    (retainTimes s ptr n).calls = s.calls := by
  induction n generalizing s with
  | zero => rfl
  | succ n ih => rw [retainTimes, ih, ref_inc_calls]

theorem wrapInt32_succ (c : Int) (n : Nat) :
    wrapInt32 (wrapInt32 (c + 1) + (n : Int)) = wrapInt32 (c + ((n + 1 : Nat) : Int)) := by
  unfold wrapInt32
  push_cast
  omega

theorem retainTimes_count (s : Heap) (a n : Nat) :
    loadInt (retainTimes s (a + SIZEOF_INT) n).mem a = wrapInt32 (loadInt s.mem a + (n : Int)) := by
  induction n generalizing s with
  | zero =>
    simp only [retainTimes, Nat.cast_zero, add_zero]
    exact (wrapInt32_of_range _ (loadInt_bounds _ _).1 (loadInt_bounds _ _).2).symm
  | succ n ih => rw [retainTimes, ih, ref_inc_count, wrapInt32_succ]

theorem oneBlockHeap_count : loadInt oneBlockHeap.mem 16 = 1 :=
  arc_alloc_count emptyHeap 8 16 (by decide)

theorem oneBlockHeap_isLive : isLive oneBlockHeap 16 = true :=
  arc_alloc_isLive emptyHeap 8 16 (by decide)

/-! ## C1: `zulon_ref_dec` -/

/-- C1 fails as stated: the block obtained by `zulon_arc_alloc(8)` and retained
`2^31 - 1` times is live with count `-2^31`; `zulon_ref_dec` on it does not leave
the count at `c - 1` (it leaves `2^31 - 1`) and the block stays handed out. -/
theorem C1_release_at_int_min :
    isLive (retainTimes oneBlockHeap 20 2147483647) 16 = true ∧
    loadInt (retainTimes oneBlockHeap 20 2147483647).mem 16 = -2147483648 ∧
    loadInt (zulon_ref_dec (retainTimes oneBlockHeap 20 2147483647) 20).mem 16
      ≠ -2147483648 - 1 ∧
    loadInt (zulon_ref_dec (retainTimes oneBlockHeap 20 2147483647) 20).mem 16
      = 2147483647 := by
  have hc : loadInt (retainTimes oneBlockHeap 20 2147483647).mem 16 = -2147483648 := by
    rw [show (20 : Nat) = 16 + SIZEOF_INT from rfl, retainTimes_count, oneBlockHeap_count]
    decide
  have hd : loadInt (zulon_ref_dec (retainTimes oneBlockHeap 20 2147483647) 20).mem 16
      = 2147483647 := by
    rw [show (20 : Nat) = 16 + SIZEOF_INT from rfl, ref_dec_count]
    rw [show (16 + SIZEOF_INT : Nat) = 20 from rfl, hc]
    decide
  refine ⟨?_, hc, ?_, hd⟩
  · rw [isLive, retainTimes_blocks]
    exact oneBlockHeap_isLive
  · rw [hd]
    decide

/-- C1 (amended): for a live block at address `a` whose count `c` is above
`INT_MIN`, `zulon_ref_dec` on the handle `a + sizeof(int)` leaves the count at
`c - 1` and changes no byte outside the header; the block is given back to the
host in that call, by `free(a)`, exactly when `c - 1 ≤ 0`; otherwise the set of
blocks and the host calls are unchanged and the block is still live. -/
theorem C1_release (s : Heap) (a : Nat) (c : Int) (hlive : isLive s a = true)
    (hc : loadInt s.mem a = c) (hmin : INT_MIN < c) :
    loadInt (zulon_ref_dec s (a + SIZEOF_INT)).mem a = c - 1 ∧
    (∀ x, x < a ∨ a + SIZEOF_INT ≤ x → (zulon_ref_dec s (a + SIZEOF_INT)).mem x = s.mem x) ∧
    (((zulon_ref_dec s (a + SIZEOF_INT)).calls = s.calls ++ [HostCall.free a] ∧
        isLive (zulon_ref_dec s (a + SIZEOF_INT)) a = false) ↔ c - 1 ≤ 0) ∧
    (c - 1 ≤ 0 →
      (zulon_ref_dec s (a + SIZEOF_INT)).blocks = s.blocks.filter (fun b => b.1 != a) ∧
      freeCount (zulon_ref_dec s (a + SIZEOF_INT)) a = freeCount s a + 1) ∧
    (1 < c →
      (zulon_ref_dec s (a + SIZEOF_INT)).blocks = s.blocks ∧
      (zulon_ref_dec s (a + SIZEOF_INT)).calls = s.calls ∧
      isLive (zulon_ref_dec s (a + SIZEOF_INT)) a = true) := by
  have hb := loadInt_bounds s.mem a
  have hw : wrapInt32 (loadInt s.mem a - 1) = c - 1 := by
    rw [hc]
    simp only [INT_MIN] at hmin
    rw [hc] at hb
    exact wrapInt32_of_range _ (by omega) (by omega)
  refine ⟨by rw [ref_dec_count, hw], ?_, ?_, ?_, ?_⟩
  · intro x hx
    rw [ref_dec_mem]
    exact storeInt_outside _ _ _ _ (by simpa [SIZEOF_INT] using hx)
  · constructor
    · rintro ⟨_, hl⟩
      by_contra hpos
      have hk := ref_dec_kept s a (by rw [hw]; omega)
      rw [isLive_of_blocks_eq s _ a hk.1, hlive] at hl
      exact Bool.noConfusion hl
    · intro hle
      have hf := ref_dec_freed s a (by rw [hw]; exact hle)
      exact ⟨hf.2, isLive_of_blocks_filter s _ a hf.1⟩
  · intro hle
    have hf := ref_dec_freed s a (by rw [hw]; exact hle)
    exact ⟨hf.1, freeCount_append_free s _ a hf.2⟩
  · intro hgt
    have hk := ref_dec_kept s a (by rw [hw]; omega)
    exact ⟨hk.1, hk.2, by rw [isLive_of_blocks_eq s _ a hk.1, hlive]⟩

/-- C1 (amended) at a concrete block: the fresh block at 16 with count 1 is
given back to the host by its first release. -/
theorem C1_release_witness :
    loadInt (zulon_ref_dec oneBlockHeap 20).mem 16 = 0 ∧
    isLive (zulon_ref_dec oneBlockHeap 20) 16 = false ∧
    freeCount (zulon_ref_dec oneBlockHeap 20) 16 = 1 := by
  have h := C1_release oneBlockHeap 16 1 oneBlockHeap_isLive oneBlockHeap_count (by decide)
  exact ⟨h.1, (h.2.2.1.2 (by decide)).2, (h.2.2.2.1 (by decide)).2⟩

theorem isLive_iff (s : Heap) (a : Nat) : isLive s a = true ↔ ∃ b ∈ s.blocks, b.1 = a := by
  simp [isLive]

theorem aligned_of_isLive (s : Heap) (a : Nat) (hwf : WellFormed s) (h : isLive s a = true) :
    a % SIZEOF_INT = 0 := by
  obtain ⟨b, hb, rfl⟩ := (isLive_iff s a).1 h
  exact hwf.1 b hb

/-- In a well-formed heap the header of the live block at `a` overlaps neither
the header nor the region of any other block. -/
theorem header_disjoint (s : Heap) (a : Nat) (hwf : WellFormed s) (h : isLive s a = true)
    (b : Nat × Nat) (hb : b ∈ s.blocks) (hne : b.1 ≠ a) :
    (b.1 + 4 ≤ a ∨ a + 4 ≤ b.1) ∧ ∀ x, b.1 ≤ x → x < b.1 + b.2 → x < a ∨ a + 4 ≤ x := by
  have ha := aligned_of_isLive s a hwf h
  have hba := hwf.1 b hb
  obtain ⟨b', hb', rfl⟩ := (isLive_iff s a).1 h
  simp only [SIZEOF_INT] at ha hba
  rcases Nat.lt_or_gt_of_ne hne with hlt | hgt
  · have := hwf.2 b hb b' hb' hlt
    exact ⟨by omega, fun x _ h2 => by omega⟩
  · exact ⟨by omega, fun x h1 _ => by omega⟩

/-! ## C3: `zulon_ref_inc` -/

/-- C3 fails as stated: the block obtained by `zulon_arc_alloc(8)` and retained
`2^31 - 2` times is live with count `INT_MAX`; one more `zulon_ref_inc` does not
leave the count at `c + 1 = 2^31` (it leaves `-2^31`). -/
theorem C3_retain_at_int_max :
    isLive (retainTimes oneBlockHeap 20 2147483646) 16 = true ∧
    loadInt (retainTimes oneBlockHeap 20 2147483646).mem 16 = 2147483647 ∧
    loadInt (zulon_ref_inc (retainTimes oneBlockHeap 20 2147483646) 20).mem 16
      ≠ 2147483647 + 1 ∧
    loadInt (zulon_ref_inc (retainTimes oneBlockHeap 20 2147483646) 20).mem 16
      = -2147483648 := by
  have hc : loadInt (retainTimes oneBlockHeap 20 2147483646).mem 16 = 2147483647 := by
    rw [show (20 : Nat) = 16 + SIZEOF_INT from rfl, retainTimes_count, oneBlockHeap_count]
    decide
  have hd : loadInt (zulon_ref_inc (retainTimes oneBlockHeap 20 2147483646) 20).mem 16
      = -2147483648 := by
    rw [show (20 : Nat) = 16 + SIZEOF_INT from rfl, ref_inc_count]
    rw [show (16 + SIZEOF_INT : Nat) = 20 from rfl, hc]
    decide
  refine ⟨?_, hc, ?_, hd⟩
  · rw [isLive, retainTimes_blocks]
    exact oneBlockHeap_isLive
  · rw [hd]
    decide

/-- C3 (amended): for a live block at address `a` whose count `c` is below
`INT_MAX`, `zulon_ref_inc` on the handle `a + sizeof(int)` leaves the count at
`c + 1` and changes nothing else: no byte outside the four header bytes
changes (so the payload is the same), the set of blocks and the list of host
calls are the same (no `malloc`, no `free`), the block is still live, and in a
well-formed heap every other block keeps its count and all its bytes. -/
theorem C3_retain (s : Heap) (a : Nat) (c : Int) (hlive : isLive s a = true)
    (hc : loadInt s.mem a = c) (hmax : c < INT_MAX) :
    loadInt (zulon_ref_inc s (a + SIZEOF_INT)).mem a = c + 1 ∧
    (∀ x, x < a ∨ a + SIZEOF_INT ≤ x → (zulon_ref_inc s (a + SIZEOF_INT)).mem x = s.mem x) ∧
    (zulon_ref_inc s (a + SIZEOF_INT)).blocks = s.blocks ∧
    (zulon_ref_inc s (a + SIZEOF_INT)).calls = s.calls ∧
    isLive (zulon_ref_inc s (a + SIZEOF_INT)) a = true ∧
    (WellFormed s → ∀ b ∈ s.blocks, b.1 ≠ a →
      loadInt (zulon_ref_inc s (a + SIZEOF_INT)).mem b.1 = loadInt s.mem b.1 ∧
      ∀ x, b.1 ≤ x → x < b.1 + b.2 → (zulon_ref_inc s (a + SIZEOF_INT)).mem x = s.mem x) := by
  have hb := loadInt_bounds s.mem a
  have hw : wrapInt32 (loadInt s.mem a + 1) = c + 1 := by
    rw [hc]
    simp only [INT_MAX] at hmax
    rw [hc] at hb
    exact wrapInt32_of_range _ (by omega) (by omega)
  refine ⟨by rw [ref_inc_count, hw], ?_, ref_inc_blocks _ _, ref_inc_calls _ _,
    by rw [ref_inc_isLive, hlive], ?_⟩
  · intro x hx
    rw [ref_inc_mem]
    exact storeInt_outside _ _ _ _ (by simpa [SIZEOF_INT] using hx)
  · intro hwf b hb hne
    have hd := header_disjoint s a hwf hlive b hb hne
    rw [ref_inc_mem]
    exact ⟨loadInt_storeInt_other _ _ _ _ (by omega),
      fun x h1 h2 => storeInt_outside _ _ _ _ (hd.2 x h1 h2)⟩

/-- C3 (amended) at a concrete block: retaining the fresh block at 16 takes its
count from 1 to 2 and makes no host call. -/
theorem C3_retain_witness :
    loadInt (zulon_ref_inc oneBlockHeap 20).mem 16 = 1 + 1 ∧
    (zulon_ref_inc oneBlockHeap 20).blocks = oneBlockHeap.blocks ∧
    (zulon_ref_inc oneBlockHeap 20).calls = oneBlockHeap.calls := by
  have h := C3_retain oneBlockHeap 16 1 oneBlockHeap_isLive oneBlockHeap_count (by decide)
  exact ⟨h.1, h.2.2.1, h.2.2.2.1⟩

/-! ## C2, C5, C8: `zulon_arc_alloc` -/

/-- C2: when the host answers the request with a block at `memory` (not `NULL`),
`zulon_arc_alloc size` returns `memory + sizeof(int)`, the count read back at
the handle minus `sizeof(int)` is 1, and every block that existed before is
still handed out with the same count and the same bytes.  The heap is laid out
as the host guarantees: block addresses are aligned for `int`, and the answer
is aligned, new, and its region overlaps no existing block. -/
theorem C2_alloc (s : Heap) (size memory : Nat) (hm : memory ≠ 0) (hal : Aligned s)
    (hfresh : HostFresh s (requestedBytes size) memory) :
    (zulon_arc_alloc s size memory).1 = memory + SIZEOF_INT ∧
    loadInt (zulon_arc_alloc s size memory).2.mem memory = 1 ∧
    loadInt (zulon_arc_alloc s size memory).2.mem
      ((zulon_arc_alloc s size memory).1 - SIZEOF_INT) = 1 ∧
    isLive (zulon_arc_alloc s size memory).2 memory = true ∧
    ∀ b ∈ s.blocks,
      b ∈ (zulon_arc_alloc s size memory).2.blocks ∧
      loadInt (zulon_arc_alloc s size memory).2.mem b.1 = loadInt s.mem b.1 ∧
      ∀ x, b.1 ≤ x → x < b.1 + b.2 → (zulon_arc_alloc s size memory).2.mem x = s.mem x := by
  refine ⟨arc_alloc_fst s size memory hm, arc_alloc_count s size memory hm, ?_,
    arc_alloc_isLive s size memory hm, ?_⟩
  · rw [arc_alloc_fst s size memory hm, handle_sub]
    exact arc_alloc_count s size memory hm
  · intro b hb
    have h1 := hal b hb
    have h2 := hfresh.1
    have h3 := hfresh.2 b hb
    simp only [SIZEOF_INT] at h1 h2
    rw [arc_alloc_blocks s size memory hm, arc_alloc_mem s size memory hm]
    refine ⟨List.mem_cons_of_mem _ hb, loadInt_storeInt_other _ _ _ _ (by omega), ?_⟩
    intro x hx1 hx2
    exact storeInt_outside _ _ _ _ (by omega)

/-- C2 at a concrete heap: a second block of payload size 0 answered at 32 next
to the block at 16. -/
theorem C2_alloc_witness :
    (zulon_arc_alloc oneBlockHeap 0 32).1 = 32 + SIZEOF_INT ∧
    loadInt (zulon_arc_alloc oneBlockHeap 0 32).2.mem 32 = 1 ∧
    loadInt (zulon_arc_alloc oneBlockHeap 0 32).2.mem 16 = loadInt oneBlockHeap.mem 16 := by
  have h := C2_alloc oneBlockHeap 0 32 (by decide) (by unfold Aligned; decide)
    (by unfold HostFresh; decide)
  exact ⟨h.1, h.2.1, (h.2.2.2.2 (16, 12) (by decide)).2.1⟩

/-- C5: when the host answers `NULL`, `zulon_arc_alloc` returns `NULL`, no byte
of memory changes, the set of blocks handed out is the same and no `free` is
made (the only host call is the failed request); and `zulon_arc_alloc` returns
`NULL` only when the host answered `NULL`. -/
theorem C5_alloc_failure (s : Heap) (size : Nat) :
    (zulon_arc_alloc s size 0).1 = 0 ∧
    (zulon_arc_alloc s size 0).2.mem = s.mem ∧
    (zulon_arc_alloc s size 0).2.blocks = s.blocks ∧
    (zulon_arc_alloc s size 0).2.calls = s.calls ++ [HostCall.malloc (requestedBytes size) 0] ∧
    (∀ a, freeCount (zulon_arc_alloc s size 0).2 a = freeCount s a) ∧
    ∀ memory, (zulon_arc_alloc s size memory).1 = 0 ↔ memory = 0 := by
  refine ⟨rfl, rfl, rfl, rfl, fun a => arc_alloc_freeCount s size 0 a, ?_⟩
  intro memory
  constructor
  · intro h
    by_contra hne
    rw [arc_alloc_fst s size memory hne] at h
    exact handle_ne_zero memory h
  · rintro rfl
    rfl

/-- The request made to the host is always `(sizeof(int) + size) mod 2^64`. -/
theorem arc_alloc_request (s : Heap) (size memory : Nat) :
    (zulon_arc_alloc s size memory).2.calls
      = s.calls ++ [HostCall.malloc ((SIZEOF_INT + size) % SIZE_MODULUS) memory] :=
  arc_alloc_calls s size memory

/-- Below the wrap-around the request is exactly `sizeof(int) + size`. -/
theorem requestedBytes_exact (size : Nat) (h : SIZEOF_INT + size < SIZE_MODULUS) :
    requestedBytes size = SIZEOF_INT + size :=
  Nat.mod_eq_of_lt h

/-- C8 (code defect): for `size = SIZE_MAX = 2^64 - 1` the sum
`sizeof(int) + size` wraps around and `zulon_arc_alloc` asks the host for 3
bytes, not for `sizeof(int) + size`; the block handed out is shorter than the
header, yet the count is written and the handle `memory + 4` is returned. -/
theorem C8_request_wraps_at_size_max :
    18446744073709551615 < SIZE_MODULUS ∧
    (zulon_arc_alloc emptyHeap 18446744073709551615 16).2.calls = [HostCall.malloc 3 16] ∧
    (zulon_arc_alloc emptyHeap 18446744073709551615 16).2.blocks = [(16, 3)] ∧
    (zulon_arc_alloc emptyHeap 18446744073709551615 16).1 = 20 ∧
    loadInt (zulon_arc_alloc emptyHeap 18446744073709551615 16).2.mem 16 = 1 ∧
    requestedBytes 18446744073709551615 ≠ SIZEOF_INT + 18446744073709551615 ∧
    requestedBytes 18446744073709551615 < SIZEOF_INT := by
  decide

/-! ## C7: two releases of a fresh block -/

/-- C7 fails as stated: after `zulon_arc_alloc(8)` answered at 16, two calls of
`zulon_ref_dec` make two `free(16)` calls, not one: the second release, reading
the count 0 left by the first, stores -1 and calls `free` again. -/
theorem C7_second_release_frees_again :
    loadInt oneBlockHeap.mem 16 = 1 ∧
    loadInt (zulon_ref_dec oneBlockHeap 20).mem 16 = 0 ∧
    loadInt (zulon_ref_dec (zulon_ref_dec oneBlockHeap 20) 20).mem 16 = -1 ∧
    (zulon_ref_dec oneBlockHeap 20).calls = [HostCall.malloc 12 16, HostCall.free 16] ∧
    (zulon_ref_dec (zulon_ref_dec oneBlockHeap 20) 20).calls
      = [HostCall.malloc 12 16, HostCall.free 16, HostCall.free 16] ∧
    freeCount (zulon_ref_dec (zulon_ref_dec oneBlockHeap 20) 20) 16 ≠ 1 := by
  decide

/-- C7 (amended): in `h = alloc(size); release(h); release(h)`, the header bytes
being kept as the first release left them, the count goes 1, 0, -1; the first
release gives the block back to the host with `free(memory)`, and the second
release calls `free(memory)` once more: two `free` calls over the sequence. -/
theorem C7_double_release (s : Heap) (size memory : Nat) (hm : memory ≠ 0) :
    loadInt (zulon_arc_alloc s size memory).2.mem memory = 1 ∧
    loadInt (zulon_ref_dec (zulon_arc_alloc s size memory).2 (memory + SIZEOF_INT)).mem memory
      = 0 ∧
    loadInt (zulon_ref_dec (zulon_ref_dec (zulon_arc_alloc s size memory).2
      (memory + SIZEOF_INT)) (memory + SIZEOF_INT)).mem memory = -1 ∧
    (zulon_ref_dec (zulon_arc_alloc s size memory).2 (memory + SIZEOF_INT)).calls
      = (zulon_arc_alloc s size memory).2.calls ++ [HostCall.free memory] ∧
    isLive (zulon_ref_dec (zulon_arc_alloc s size memory).2 (memory + SIZEOF_INT)) memory
      = false ∧
    (zulon_ref_dec (zulon_ref_dec (zulon_arc_alloc s size memory).2
      (memory + SIZEOF_INT)) (memory + SIZEOF_INT)).calls
      = (zulon_arc_alloc s size memory).2.calls
        ++ [HostCall.free memory, HostCall.free memory] ∧
    freeCount (zulon_ref_dec (zulon_ref_dec (zulon_arc_alloc s size memory).2
      (memory + SIZEOF_INT)) (memory + SIZEOF_INT)) memory = freeCount s memory + 2 := by
  have h1 := arc_alloc_count s size memory hm
  have h2 : loadInt (zulon_ref_dec (zulon_arc_alloc s size memory).2
      (memory + SIZEOF_INT)).mem memory = 0 := by
    rw [ref_dec_count, h1]; rfl
  have h3 : loadInt (zulon_ref_dec (zulon_ref_dec (zulon_arc_alloc s size memory).2
      (memory + SIZEOF_INT)) (memory + SIZEOF_INT)).mem memory = -1 := by
    rw [ref_dec_count, h2]; rfl
  have f1 := ref_dec_freed (zulon_arc_alloc s size memory).2 memory (by rw [h1]; decide)
  have f2 := ref_dec_freed (zulon_ref_dec (zulon_arc_alloc s size memory).2
    (memory + SIZEOF_INT)) memory (by rw [h2]; decide)
  refine ⟨h1, h2, h3, f1.2, isLive_of_blocks_filter _ _ _ f1.1, ?_, ?_⟩
  · rw [f2.2, f1.2, List.append_assoc]
    rfl
  · rw [freeCount_append_free _ _ _ f2.2, freeCount_append_free _ _ _ f1.2,
      arc_alloc_freeCount]

/-- C7 (amended) at a concrete input: payload size 8, host answer 16. -/
theorem C7_double_release_witness :
    loadInt (zulon_ref_dec (zulon_ref_dec (zulon_arc_alloc emptyHeap 8 16).2
      (16 + SIZEOF_INT)) (16 + SIZEOF_INT)).mem 16 = -1 ∧
    freeCount (zulon_ref_dec (zulon_ref_dec (zulon_arc_alloc emptyHeap 8 16).2
      (16 + SIZEOF_INT)) (16 + SIZEOF_INT)) 16 = freeCount emptyHeap 16 + 2 := by
  have h := C7_double_release emptyHeap 8 16 (by decide)
  exact ⟨h.2.2.1, h.2.2.2.2.2.2⟩

/-! ## C4: `alloc`, `n` retains, `k` releases -/

theorem releaseTimes_kept (a k : Nat) (s : Heap) (h : (k : Int) < loadInt s.mem a) :
    loadInt (releaseTimes s (a + SIZEOF_INT) k).mem a = loadInt s.mem a - (k : Int) ∧
    (releaseTimes s (a + SIZEOF_INT) k).blocks = s.blocks ∧
    (releaseTimes s (a + SIZEOF_INT) k).calls = s.calls := by
  induction k generalizing s with
  | zero => simp [releaseTimes]
  | succ k ih =>
    have hb := loadInt_bounds s.mem a
    have hw : wrapInt32 (loadInt s.mem a - 1) = loadInt s.mem a - 1 :=
      wrapInt32_of_range _ (by omega) (by omega)
    have hc : loadInt (zulon_ref_dec s (a + SIZEOF_INT)).mem a = loadInt s.mem a - 1 := by
      rw [ref_dec_count, hw]
    have hk := ref_dec_kept s a (by rw [hw]; push_cast at h; omega)
    have := ih (zulon_ref_dec s (a + SIZEOF_INT)) (by rw [hc]; push_cast at h; omega)
    rw [releaseTimes, this.1, this.2.1, this.2.2, hc, hk.1, hk.2]
    push_cast
    exact ⟨by omega, rfl, rfl⟩

theorem releaseTimes_succ (s : Heap) (ptr k : Nat) :
    releaseTimes s ptr (k + 1) = zulon_ref_dec (releaseTimes s ptr k) ptr := by
  induction k generalizing s with
  | zero => rfl
  | succ k ih => rw [releaseTimes, ih, releaseTimes]

/-- After `alloc` and `n` retains without overflow, the count is `n + 1`, the
blocks and the host calls are those left by `alloc`. -/
theorem alloc_retain_state (s : Heap) (size memory n : Nat) (hm : memory ≠ 0)
    (hn : (n : Int) + 1 ≤ INT_MAX) :
    loadInt (retainTimes (zulon_arc_alloc s size memory).2
      (zulon_arc_alloc s size memory).1 n).mem memory = (n : Int) + 1 ∧
    (retainTimes (zulon_arc_alloc s size memory).2
      (zulon_arc_alloc s size memory).1 n).blocks = (zulon_arc_alloc s size memory).2.blocks ∧
    (retainTimes (zulon_arc_alloc s size memory).2
      (zulon_arc_alloc s size memory).1 n).calls = (zulon_arc_alloc s size memory).2.calls := by
  refine ⟨?_, retainTimes_blocks _ _ _, retainTimes_calls _ _ _⟩
  rw [arc_alloc_fst s size memory hm, retainTimes_count, arc_alloc_count s size memory hm]
  simp only [INT_MAX] at hn
  rw [wrapInt32_of_range _ (by omega) (by omega)]
  omega

theorem allocRetainRelease_kept (s : Heap) (size memory n k : Nat) (hm : memory ≠ 0)
    (hn : (n : Int) + 1 ≤ INT_MAX) (hk : k ≤ n) :
    loadInt (allocRetainRelease s size memory n k).mem memory = (n : Int) + 1 - (k : Int) ∧
    (allocRetainRelease s size memory n k).blocks = (zulon_arc_alloc s size memory).2.blocks ∧
    (allocRetainRelease s size memory n k).calls = (zulon_arc_alloc s size memory).2.calls := by
  have h2 := alloc_retain_state s size memory n hm hn
  unfold allocRetainRelease
  rw [arc_alloc_fst s size memory hm] at h2 ⊢
  have h3 := releaseTimes_kept memory k (retainTimes (zulon_arc_alloc s size memory).2
    (memory + SIZEOF_INT) n) (by rw [h2.1]; omega)
  rw [h3.1, h3.2.1, h3.2.2, h2.1, h2.2.1, h2.2.2]
  exact ⟨rfl, rfl, rfl⟩

/-- C4 fails as stated: with `n = 2^31 - 1` retains and `k = 0` releases after
`alloc`, the count is not `n + 1 - k = 2^31` (it is `-2^31`). -/
theorem C4_count_wraps :
    loadInt (allocRetainRelease emptyHeap 8 16 2147483647 0).mem 16 = -2147483648 ∧
    loadInt (allocRetainRelease emptyHeap 8 16 2147483647 0).mem 16
      ≠ ((2147483647 : Nat) : Int) + 1 - ((0 : Nat) : Int) := by
  have hc : loadInt (allocRetainRelease emptyHeap 8 16 2147483647 0).mem 16 = -2147483648 := by
    unfold allocRetainRelease
    rw [releaseTimes, arc_alloc_fst emptyHeap 8 16 (by decide), retainTimes_count,
      arc_alloc_count emptyHeap 8 16 (by decide)]
    decide
  refine ⟨hc, ?_⟩
  rw [hc]
  decide

/-- C4 (amended): for every size, every `n` with `n + 1 ≤ INT_MAX` and every
`k ≤ n + 1`: after `h = alloc(size)`, `n` retains and `k` releases of `h`, if
`k ≤ n` the block is still handed out with count `n + 1 - k` and no `free` of
it has been made; if `k = n + 1` the block has been given back by exactly one
`free`, made by the last release (the host calls after the first `n` releases
are still those left by `alloc`). -/
theorem C4_retain_release (s : Heap) (size memory n k : Nat) (hm : memory ≠ 0)
    (hn : (n : Int) + 1 ≤ INT_MAX) (hk : k ≤ n + 1) :
    (k ≤ n →
      isLive (allocRetainRelease s size memory n k) memory = true ∧
      loadInt (allocRetainRelease s size memory n k).mem memory = (n : Int) + 1 - (k : Int) ∧
      freeCount (allocRetainRelease s size memory n k) memory = freeCount s memory) ∧
    (k = n + 1 →
      isLive (allocRetainRelease s size memory n k) memory = false ∧
      freeCount (allocRetainRelease s size memory n k) memory = freeCount s memory + 1 ∧
      (allocRetainRelease s size memory n n).calls = (zulon_arc_alloc s size memory).2.calls ∧
      (allocRetainRelease s size memory n k).calls
        = (allocRetainRelease s size memory n n).calls ++ [HostCall.free memory]) := by
  constructor
  · intro hle
    have h := allocRetainRelease_kept s size memory n k hm hn hle
    refine ⟨?_, h.1, ?_⟩
    · rw [isLive_of_blocks_eq _ _ memory h.2.1]
      exact arc_alloc_isLive s size memory hm
    · rw [freeCount_of_calls_eq _ _ memory h.2.2, arc_alloc_freeCount]
  · intro heq
    subst heq
    have h := allocRetainRelease_kept s size memory n n hm hn (le_refl n)
    have hstep : allocRetainRelease s size memory n (n + 1)
        = zulon_ref_dec (allocRetainRelease s size memory n n) (memory + SIZEOF_INT) := by
      unfold allocRetainRelease
      rw [releaseTimes_succ, arc_alloc_fst s size memory hm]
    have hf := ref_dec_freed (allocRetainRelease s size memory n n) memory
      (by rw [h.1]; simp only [sub_self, add_sub_cancel_left]; decide)
    rw [hstep]
    refine ⟨isLive_of_blocks_filter _ _ _ hf.1, ?_, h.2.2, hf.2⟩
    rw [freeCount_append_free _ _ _ hf.2, freeCount_of_calls_eq _ _ memory h.2.2,
      arc_alloc_freeCount]

/-- C4 (amended) at a concrete input: `alloc(8)` answered at 16, two retains,
three releases. -/
theorem C4_retain_release_witness :
    isLive (allocRetainRelease emptyHeap 8 16 2 3) 16 = false ∧
    freeCount (allocRetainRelease emptyHeap 8 16 2 3) 16 = freeCount emptyHeap 16 + 1 := by
  have h := (C4_retain_release emptyHeap 8 16 2 3 (by decide) (by decide) (by decide)).2 rfl
  exact ⟨h.1, h.2.1⟩

/-! ## C9: only the numbers of retains and releases matter -/

theorem applyCalls_replicate_retain (s : Heap) (ptr n : Nat) :
    applyCalls s ptr (List.replicate n Call.retain) = retainTimes s ptr n := by
  induction n generalizing s with
  | zero => rfl
  | succ n ih => rw [List.replicate_succ, applyCalls, applyCall, ih, retainTimes]

theorem allLive_replicate_retain (s : Heap) (ptr n : Nat)
    (h : isLive s (ptr - SIZEOF_INT) = true) :
    allLive s ptr (List.replicate n Call.retain) = true := by
  induction n generalizing s with
  | zero => rfl
  | succ n ih =>
    rw [List.replicate_succ, allLive, h, Bool.true_and, applyCall]
    exact ih _ (by rw [ref_inc_isLive]; exact h)

/-- A sequence of calls on the handle of a live block with count `c ≥ 1`, each
made while the block is live and with `c` plus the number of retains within
`INT_MAX`: the block ends up given back exactly when the number of releases is
`c` plus the number of retains, and otherwise is live with the balance as count. -/
theorem applyCalls_outcome (a : Nat) (cs : List Call) (s : Heap) (hlive : isLive s a = true)
    (hc : 1 ≤ loadInt s.mem a)
    (hr : loadInt s.mem a + (cs.count Call.retain : Int) ≤ INT_MAX)
    (hl : allLive s (a + SIZEOF_INT) cs = true) :
    (isLive (applyCalls s (a + SIZEOF_INT) cs) a = false ↔
      (cs.count Call.release : Int) = loadInt s.mem a + (cs.count Call.retain : Int)) ∧
    (isLive (applyCalls s (a + SIZEOF_INT) cs) a = true →
      loadInt (applyCalls s (a + SIZEOF_INT) cs).mem a
        = loadInt s.mem a + (cs.count Call.retain : Int) - (cs.count Call.release : Int)) := by
  induction cs generalizing s with
  | nil =>
    simp only [applyCalls, List.count_nil, Nat.cast_zero, add_zero, sub_zero, hlive]
    exact ⟨⟨fun h => Bool.noConfusion h, fun h => by omega⟩, fun _ => trivial⟩
  | cons c cs ih =>
    simp only [INT_MAX] at hr ih
    rw [allLive, handle_sub, hlive, Bool.true_and] at hl
    cases c with
    | retain =>
      rw [List.count_cons_self, List.count_cons_of_ne (by decide)] at *
      push_cast at hr
      have hcnt : loadInt (zulon_ref_inc s (a + SIZEOF_INT)).mem a = loadInt s.mem a + 1 := by
        rw [ref_inc_count, wrapInt32_of_range _ (by omega) (by omega)]
      have := ih (zulon_ref_inc s (a + SIZEOF_INT)) (by rw [ref_inc_isLive]; exact hlive)
        (by rw [hcnt]; omega) (by rw [hcnt]; omega) hl
      rw [hcnt] at this
      rw [applyCalls, applyCall]
      push_cast
      constructor
      · rw [this.1]; constructor <;> intro h <;> omega
      · intro h; rw [this.2 h]; omega
    | release =>
      rw [List.count_cons_self, List.count_cons_of_ne (by decide)] at *
      have hb := loadInt_bounds s.mem a
      have hw : wrapInt32 (loadInt s.mem a - 1) = loadInt s.mem a - 1 :=
        wrapInt32_of_range _ (by omega) (by omega)
      have hcnt : loadInt (zulon_ref_dec s (a + SIZEOF_INT)).mem a = loadInt s.mem a - 1 := by
        rw [ref_dec_count, hw]
      rw [applyCalls, applyCall]
      rw [applyCall] at hl
      push_cast
      by_cases h1 : loadInt s.mem a = 1
      · have hf := ref_dec_freed s a (by rw [hw, h1]; decide)
        have hdead := isLive_of_blocks_filter s _ a hf.1
        cases cs with
        | nil =>
          simp only [applyCalls, List.count_nil, Nat.cast_zero, hdead, h1]
          exact ⟨⟨fun _ => by omega, fun _ => trivial⟩, fun h => Bool.noConfusion h⟩
        | cons c cs =>
          rw [allLive, handle_sub, hdead, Bool.false_and] at hl
          exact Bool.noConfusion hl
      · have hk := ref_dec_kept s a (by rw [hw]; omega)
        have := ih (zulon_ref_dec s (a + SIZEOF_INT))
          (by rw [isLive_of_blocks_eq s _ a hk.1]; exact hlive)
          (by rw [hcnt]; omega) (by rw [hcnt]; omega) hl
        rw [hcnt] at this
        constructor
        · rw [this.1]; constructor <;> intro h <;> omega
        · intro h; rw [this.2 h]; omega

/-- C9 fails as stated: `2^31 - 1` retains and no release on a fresh block, each
made while the block is live, leave it live with a count that is not
`1 + r - d = 2^31` (it is `-2^31`). -/
theorem C9_count_wraps :
    allLive oneBlockHeap 20 (List.replicate 2147483647 Call.retain) = true ∧
    isLive (applyCalls oneBlockHeap 20 (List.replicate 2147483647 Call.retain)) 16 = true ∧
    loadInt (applyCalls oneBlockHeap 20 (List.replicate 2147483647 Call.retain)).mem 16
      ≠ 1 + ((2147483647 : Nat) : Int) - ((0 : Nat) : Int) := by
  refine ⟨allLive_replicate_retain _ _ _ oneBlockHeap_isLive, ?_, ?_⟩
  · rw [applyCalls_replicate_retain, isLive, retainTimes_blocks]
    exact oneBlockHeap_isLive
  · rw [applyCalls_replicate_retain, show (20 : Nat) = 16 + SIZEOF_INT from rfl,
      retainTimes_count, oneBlockHeap_count]
    decide

/-- C9 (amended): for a fresh block from `alloc` and two call sequences on its
handle that are permutations of one another, with `r` retains and `d` releases
each, `r + 1 ≤ INT_MAX`, every call being made while the block is live: both
sequences end in the same outcome; the block has been given back if and only
if `d = r + 1`, and otherwise it is live with count `1 + r - d` in both. -/
theorem C9_order_irrelevant (s : Heap) (size memory : Nat) (cs cs' : List Call)
    (hm : memory ≠ 0) (hperm : cs.Perm cs')
    (hr : (cs.count Call.retain : Int) + 1 ≤ INT_MAX)
    (hl : allLive (zulon_arc_alloc s size memory).2 (zulon_arc_alloc s size memory).1 cs = true)
    (hl' : allLive (zulon_arc_alloc s size memory).2 (zulon_arc_alloc s size memory).1 cs'
      = true) :
    (isLive (applyCalls (zulon_arc_alloc s size memory).2
        (zulon_arc_alloc s size memory).1 cs) memory
      = isLive (applyCalls (zulon_arc_alloc s size memory).2
        (zulon_arc_alloc s size memory).1 cs') memory) ∧
    (isLive (applyCalls (zulon_arc_alloc s size memory).2
        (zulon_arc_alloc s size memory).1 cs) memory = false
      ↔ cs.count Call.release = cs.count Call.retain + 1) ∧
    (cs.count Call.release ≠ cs.count Call.retain + 1 →
      loadInt (applyCalls (zulon_arc_alloc s size memory).2
        (zulon_arc_alloc s size memory).1 cs).mem memory
        = 1 + (cs.count Call.retain : Int) - (cs.count Call.release : Int) ∧
      loadInt (applyCalls (zulon_arc_alloc s size memory).2
        (zulon_arc_alloc s size memory).1 cs').mem memory
        = 1 + (cs.count Call.retain : Int) - (cs.count Call.release : Int)) := by
  rw [arc_alloc_fst s size memory hm] at hl hl' ⊢
  have hc := arc_alloc_count s size memory hm
  have hlive := arc_alloc_isLive s size memory hm
  have hRet : cs'.count Call.retain = cs.count Call.retain := (hperm.count_eq _).symm
  have hRel : cs'.count Call.release = cs.count Call.release := (hperm.count_eq _).symm
  have o := applyCalls_outcome memory cs (zulon_arc_alloc s size memory).2 hlive
    (by rw [hc]) (by rw [hc]; omega) hl
  have o' := applyCalls_outcome memory cs' (zulon_arc_alloc s size memory).2 hlive
    (by rw [hc]) (by rw [hc, hRet]; omega) hl'
  rw [hc] at o o'
  rw [hRet, hRel] at o'
  have e1 : isLive (applyCalls (zulon_arc_alloc s size memory).2 (memory + SIZEOF_INT) cs)
      memory = false ↔ cs.count Call.release = cs.count Call.retain + 1 := by
    rw [o.1]; constructor <;> intro h <;> omega
  have e2 : isLive (applyCalls (zulon_arc_alloc s size memory).2 (memory + SIZEOF_INT) cs')
      memory = false ↔ cs.count Call.release = cs.count Call.retain + 1 := by
    rw [o'.1]; constructor <;> intro h <;> omega
  refine ⟨?_, e1, ?_⟩
  · by_cases hd : cs.count Call.release = cs.count Call.retain + 1
    · rw [e1.2 hd, e2.2 hd]
    · rw [Bool.eq_true_of_not_eq_false (fun h => hd (e1.1 h)),
        Bool.eq_true_of_not_eq_false (fun h => hd (e2.1 h))]
  · intro hd
    exact ⟨o.2 (Bool.eq_true_of_not_eq_false (fun h => hd (e1.1 h))),
      o'.2 (Bool.eq_true_of_not_eq_false (fun h => hd (e2.1 h)))⟩

/-- C9 (amended) at a concrete input: retain, release, release against
release, retain, release on the fresh block at 16. -/
theorem C9_order_irrelevant_witness :
    isLive (applyCalls (zulon_arc_alloc emptyHeap 8 16).2 (zulon_arc_alloc emptyHeap 8 16).1
        [Call.retain, Call.retain, Call.release]) 16
      = isLive (applyCalls (zulon_arc_alloc emptyHeap 8 16).2 (zulon_arc_alloc emptyHeap 8 16).1
        [Call.retain, Call.release, Call.retain]) 16 ∧
    loadInt (applyCalls (zulon_arc_alloc emptyHeap 8 16).2 (zulon_arc_alloc emptyHeap 8 16).1
        [Call.retain, Call.release, Call.retain]).mem 16 = 1 + ((2 : Nat) : Int) - ((1 : Nat) : Int) := by
  have h := C9_order_irrelevant emptyHeap 8 16 [Call.retain, Call.retain, Call.release]
    [Call.retain, Call.release, Call.retain] (by decide) (by decide) (by decide) (by decide)
    (by decide)
  exact ⟨h.1, (h.2.2 (by decide)).2⟩

/-! ## C6: Invariant A in every reachable state -/

theorem countInvariant_empty : CountInvariant emptyHeap :=
  ⟨fun _ hb => absurd hb (List.not_mem_nil _), fun _ hb => absurd hb (List.not_mem_nil _)⟩

theorem liveHandle_eq (s : Heap) (h : Nat) (hl : LiveHandle s h) :
    h = (h - SIZEOF_INT) + SIZEOF_INT ∧ isLive s (h - SIZEOF_INT) = true :=
  ⟨(Nat.sub_add_cancel hl.1).symm, hl.2⟩

theorem aligned_headers_disjoint (s : Heap) (a : Nat) (hal : Aligned s)
    (hlive : isLive s a = true) (b : Nat × Nat) (hb : b ∈ s.blocks) (hne : b.1 ≠ a) :
    b.1 + 4 ≤ a ∨ a + 4 ≤ b.1 := by
  obtain ⟨b', hb', rfl⟩ := (isLive_iff s a).1 hlive
  have h1 := hal b hb
  have h2 := hal b' hb'
  simp only [SIZEOF_INT] at h1 h2
  omega

theorem countInvariant_alloc (s : Heap) (size memory : Nat) (hinv : CountInvariant s)
    (hv : Valid s (Op.alloc size memory)) :
    CountInvariant (zulon_arc_alloc s size memory).2 := by
  by_cases hm : memory = 0
  · subst hm
    exact hinv
  · have hfresh : HostFresh s (requestedBytes size) memory := by
      rcases hv.2 with h | h
      · exact absurd h hm
      · exact h
    constructor
    · intro b hb
      rw [arc_alloc_blocks s size memory hm, List.mem_cons] at hb
      rcases hb with rfl | hb
      · exact hfresh.1
      · exact hinv.1 b hb
    · intro b hb
      rw [arc_alloc_blocks s size memory hm, List.mem_cons] at hb
      by_cases hbm : b.1 = memory
      · rw [hbm, arc_alloc_count s size memory hm]
      · rcases hb with rfl | hb
        · exact absurd rfl hbm
        · have h1 := hinv.1 b hb
          have h2 := hfresh.1
          simp only [SIZEOF_INT] at h1 h2
          rw [arc_alloc_mem s size memory hm, loadInt_storeInt_other _ _ _ _ (by omega)]
          exact hinv.2 b hb

theorem countInvariant_retain (s : Heap) (a : Nat) (hinv : CountInvariant s)
    (hlive : isLive s a = true) (hmax : loadInt s.mem a < INT_MAX) :
    CountInvariant (zulon_ref_inc s (a + SIZEOF_INT)) := by
  obtain ⟨b0, hb0, hb0a⟩ := (isLive_iff s a).1 hlive
  have hc : 1 ≤ loadInt s.mem a := hb0a ▸ hinv.2 b0 hb0
  simp only [INT_MAX] at hmax
  constructor
  · intro b hb
    rw [ref_inc_blocks] at hb
    exact hinv.1 b hb
  · intro b hb
    rw [ref_inc_blocks] at hb
    by_cases hba : b.1 = a
    · rw [hba, ref_inc_count, wrapInt32_of_range _ (by omega) (by omega)]
      omega
    · rw [ref_inc_mem, loadInt_storeInt_other _ _ _ _
        (by have := aligned_headers_disjoint s a hinv.1 hlive b hb hba; omega)]
      exact hinv.2 b hb

theorem countInvariant_release (s : Heap) (a : Nat) (hinv : CountInvariant s)
    (hlive : isLive s a = true) :
    CountInvariant (zulon_ref_dec s (a + SIZEOF_INT)) := by
  obtain ⟨b0, hb0, hb0a⟩ := (isLive_iff s a).1 hlive
  have hc : 1 ≤ loadInt s.mem a := hb0a ▸ hinv.2 b0 hb0
  have hbd := loadInt_bounds s.mem a
  have hw : wrapInt32 (loadInt s.mem a - 1) = loadInt s.mem a - 1 :=
    wrapInt32_of_range _ (by omega) (by omega)
  by_cases h1 : loadInt s.mem a = 1
  · have hf := ref_dec_freed s a (by rw [hw, h1]; decide)
    constructor
    · intro b hb
      rw [hf.1] at hb
      exact hinv.1 b (List.mem_filter.1 hb).1
    · intro b hb
      rw [hf.1] at hb
      have hb' := (List.mem_filter.1 hb).1
      have hba : b.1 ≠ a := by simpa using (List.mem_filter.1 hb).2
      rw [ref_dec_mem, loadInt_storeInt_other _ _ _ _
        (by have := aligned_headers_disjoint s a hinv.1 hlive b hb' hba; omega)]
      exact hinv.2 b hb'
  · have hk := ref_dec_kept s a (by rw [hw]; omega)
    constructor
    · intro b hb
      rw [hk.1] at hb
      exact hinv.1 b hb
    · intro b hb
      rw [hk.1] at hb
      by_cases hba : b.1 = a
      · rw [hba, ref_dec_count, hw]
        omega
      · rw [ref_dec_mem, loadInt_storeInt_other _ _ _ _
          (by have := aligned_headers_disjoint s a hinv.1 hlive b hb hba; omega)]
        exact hinv.2 b hb

theorem countInvariant_step (s : Heap) (op : Op) (hinv : CountInvariant s)
    (hv : Valid s op) (hb : NoOverflow s op) : CountInvariant (step s op) := by
  cases op with
  | alloc size memory => exact countInvariant_alloc s size memory hinv hv
  | retain h =>
    have hl := liveHandle_eq s h hv
    rw [step, hl.1]
    exact countInvariant_retain s _ hinv hl.2 hb
  | release h =>
    have hl := liveHandle_eq s h hv
    rw [step, hl.1]
    exact countInvariant_release s _ hinv hl.2

theorem countInvariant_run (ops : List Op) (s : Heap) (hinv : CountInvariant s)
    (hv : ValidRun s ops) (hb : BoundedRun s ops) : CountInvariant (run s ops) := by
  induction ops generalizing s with
  | nil => exact hinv
  | cons op ops ih =>
    exact ih (step s op) (countInvariant_step s op hinv hv.1 hb.1) hv.2 hb.2

/-- From a heap satisfying the invariant, a valid operation gives the block at
`b.1` back to the host exactly when it is `release` of that block's handle
taking the count from 1 to 0; the call `free(b.1)` is then the last host call. -/
theorem step_frees_iff (s : Heap) (op : Op) (hinv : CountInvariant s) (hv : Valid s op)
    (b : Nat × Nat) (hb : b ∈ s.blocks) :
    (isLive (step s op) b.1 = false ↔
      op = Op.release (b.1 + SIZEOF_INT) ∧ loadInt s.mem b.1 = 1 ∧
        loadInt (step s op).mem b.1 = 0) ∧
    (isLive (step s op) b.1 = false → (step s op).calls = s.calls ++ [HostCall.free b.1]) := by
  have hbl : isLive s b.1 = true := (isLive_iff s b.1).2 ⟨b, hb, rfl⟩
  cases op with
  | alloc size memory =>
    have hstay : isLive (step s (Op.alloc size memory)) b.1 = true := by
      rw [step, isLive_iff]
      refine ⟨b, ?_, rfl⟩
      by_cases hm : memory = 0
      · subst hm; exact hb
      · rw [arc_alloc_blocks s size memory hm]; exact List.mem_cons_of_mem _ hb
    rw [hstay]
    exact ⟨⟨fun h => Bool.noConfusion h, fun h => Op.noConfusion h.1⟩,
      fun h => Bool.noConfusion h⟩
  | retain h =>
    have hstay : isLive (step s (Op.retain h)) b.1 = true := by
      rw [step, ref_inc_isLive]; exact hbl
    rw [hstay]
    exact ⟨⟨fun h => Bool.noConfusion h, fun h => Op.noConfusion h.1⟩,
      fun h => Bool.noConfusion h⟩
  | release h =>
    have hl := liveHandle_eq s h hv
    generalize h - SIZEOF_INT = a at hl
    obtain ⟨rfl, hlive⟩ := hl
    obtain ⟨b0, hb0, hb0a⟩ := (isLive_iff s a).1 hlive
    have hc : 1 ≤ loadInt s.mem a := hb0a ▸ hinv.2 b0 hb0
    have hbd := loadInt_bounds s.mem a
    have hw : wrapInt32 (loadInt s.mem a - 1) = loadInt s.mem a - 1 :=
      wrapInt32_of_range _ (by omega) (by omega)
    rw [step]
    by_cases hba : b.1 = a
    · rw [hba]
      by_cases h1 : loadInt s.mem a = 1
      · have hf := ref_dec_freed s a (by rw [hw, h1]; decide)
        have hdead := isLive_of_blocks_filter s _ a hf.1
        rw [hdead, ref_dec_count, hw, h1]
        exact ⟨⟨fun _ => ⟨rfl, rfl, rfl⟩, fun _ => rfl⟩, fun _ => hf.2⟩
      · have hk := ref_dec_kept s a (by rw [hw]; omega)
        rw [isLive_of_blocks_eq s _ a hk.1, hlive]
        exact ⟨⟨fun h => Bool.noConfusion h, fun h => absurd h.2.1 h1⟩,
          fun h => Bool.noConfusion h⟩
    · have hstay : isLive (zulon_ref_dec s (a + SIZEOF_INT)) b.1 = true := by
        rw [isLive_iff]
        refine ⟨b, ?_, rfl⟩
        by_cases hle : wrapInt32 (loadInt s.mem a - 1) ≤ 0
        · rw [(ref_dec_freed s a hle).1]
          exact List.mem_filter.2 ⟨hb, by simpa using hba⟩
        · rw [(ref_dec_kept s a (by omega)).1]; exact hb
      rw [hstay]
      refine ⟨⟨fun h => Bool.noConfusion h, fun h => ?_⟩, fun h => Bool.noConfusion h⟩
      have := Op.release.inj h.1
      exact absurd (Nat.add_right_cancel this).symm hba

theorem run_replicate_retain (s : Heap) (h n : Nat) :
    run s (List.replicate n (Op.retain h)) = retainTimes s h n := by
  induction n generalizing s with
  | zero => rfl
  | succ n ih => rw [List.replicate_succ, run, step, ih, retainTimes]

theorem validRun_replicate_retain (s : Heap) (h n : Nat) (hl : LiveHandle s h) :
    ValidRun s (List.replicate n (Op.retain h)) := by
  induction n generalizing s with
  | zero => exact trivial
  | succ n ih =>
    rw [List.replicate_succ]
    exact ⟨hl, ih _ ⟨hl.1, by rw [step, ref_inc_isLive]; exact hl.2⟩⟩

/-- C6 fails as stated: `alloc(8)` answered at 16 followed by `2^31 - 1` retains
of its handle is a sequence of calls on live handles only, and it ends in a
state where the block is still handed out with a count below 1 (`-2^31`). -/
theorem C6_invariant_breaks_on_overflow :
    ValidRun emptyHeap (Op.alloc 8 16 :: List.replicate 2147483647 (Op.retain 20)) ∧
    isLive (run emptyHeap (Op.alloc 8 16 :: List.replicate 2147483647 (Op.retain 20))) 16
      = true ∧
    loadInt (run emptyHeap (Op.alloc 8 16 :: List.replicate 2147483647 (Op.retain 20))).mem 16
      = -2147483648 ∧
    ¬ (1 ≤ loadInt
      (run emptyHeap (Op.alloc 8 16 :: List.replicate 2147483647 (Op.retain 20))).mem 16) := by
  have hrun : run emptyHeap (Op.alloc 8 16 :: List.replicate 2147483647 (Op.retain 20))
      = retainTimes oneBlockHeap 20 2147483647 := by
    rw [run, run_replicate_retain]
    rfl
  have hc : loadInt (retainTimes oneBlockHeap 20 2147483647).mem 16 = -2147483648 := by
    rw [show (20 : Nat) = 16 + SIZEOF_INT from rfl, retainTimes_count, oneBlockHeap_count]
    decide
  refine ⟨⟨⟨by decide, Or.inr ⟨by decide, fun _ hb => absurd hb (List.not_mem_nil _)⟩⟩,
    validRun_replicate_retain _ _ _ ⟨by decide, oneBlockHeap_isLive⟩⟩, ?_, ?_, ?_⟩
  · rw [hrun, isLive, retainTimes_blocks]
    exact oneBlockHeap_isLive
  · rw [hrun, hc]
  · rw [hrun, hc]
    decide

/-- C6 (amended): start from the empty heap and apply any finite sequence of
`alloc`, `retain` and `release` in which `retain` and `release` are applied to
live handles only and `retain` is never applied to a block whose count is
`INT_MAX`.  Then every block still handed out has count at least 1; and any
further valid operation gives a block back to the host exactly when it is
`release` of that block taking its count from 1 to 0, the call `free` on the
block's address being made in that step. -/
theorem C6_invariant_A (ops : List Op) (hv : ValidRun emptyHeap ops)
    (hb : BoundedRun emptyHeap ops) :
    (∀ b ∈ (run emptyHeap ops).blocks, 1 ≤ loadInt (run emptyHeap ops).mem b.1) ∧
    (∀ op, Valid (run emptyHeap ops) op → ∀ b ∈ (run emptyHeap ops).blocks,
      (isLive (step (run emptyHeap ops) op) b.1 = false ↔
        op = Op.release (b.1 + SIZEOF_INT) ∧ loadInt (run emptyHeap ops).mem b.1 = 1 ∧
          loadInt (step (run emptyHeap ops) op).mem b.1 = 0) ∧
      (isLive (step (run emptyHeap ops) op) b.1 = false →
        (step (run emptyHeap ops) op).calls
          = (run emptyHeap ops).calls ++ [HostCall.free b.1])) := by
  have hinv := countInvariant_run ops emptyHeap countInvariant_empty hv hb
  exact ⟨hinv.2, fun op hop b hbm => step_frees_iff _ op hinv hop b hbm⟩

/-- C6 (amended) at a concrete sequence: `alloc(8)` answered at 16, one retain,
one release; the block is still handed out with count at least 1. -/
theorem C6_invariant_A_witness :
    (16, 12) ∈ (run emptyHeap [Op.alloc 8 16, Op.retain 20, Op.release 20]).blocks ∧
    1 ≤ loadInt (run emptyHeap [Op.alloc 8 16, Op.retain 20, Op.release 20]).mem 16 := by
  have h := C6_invariant_A [Op.alloc 8 16, Op.retain 20, Op.release 20]
    ⟨⟨by decide, Or.inr ⟨by decide, fun _ hb => absurd hb (List.not_mem_nil _)⟩⟩,
      ⟨by decide, by decide⟩, ⟨by decide, by decide⟩, trivial⟩
    ⟨trivial, by unfold NoOverflow; decide, trivial, trivial⟩
  exact ⟨by decide, h.1 (16, 12) (by decide)⟩

/-! ## C10: `zulon_print_i32` -/

theorem printBuffer_eq (buffer : Nat → Char) (i : Nat) (out : List Char) :
    printBuffer buffer i out = out ++ ((List.range i).map buffer).reverse := by
  induction i generalizing out with
  | zero => simp [printBuffer]
  | succ i ih =>
    rw [printBuffer, ih, zulon_putchar, List.range_succ, List.map_append, List.reverse_append]
    simp

theorem digitChar_eq (n : Nat) : digitChar (Int.tmod (n : Int) 10) = Nat.digitChar (n % 10) := by
  have h : Int.tmod (n : Int) 10 = ((n % 10 : Nat) : Int) := (Int.ofNat_tmod n 10).symm
  rw [h, digitChar, Int.toNat_ofNat]
  have hlt : n % 10 < 10 := Nat.mod_lt _ (by decide)
  generalize n % 10 = d at hlt
  interval_cases d <;> rfl

theorem range_map_update (buffer : Nat → Char) (i : Nat) (d : Char) :
    ((List.range (i + 1)).map (fun k => if k = i then d else buffer k)).reverse
      = d :: ((List.range i).map buffer).reverse := by
  rw [List.range_succ, List.map_append, List.reverse_append]
  simp only [List.map_cons, List.map_nil, List.reverse_cons, List.reverse_nil, List.nil_append,
    if_true, List.singleton_append, List.cons.injEq, true_and]
  congr 1
  apply List.map_congr_left
  intro k hk
  rw [if_neg (Nat.ne_of_lt (List.mem_range.1 hk))]

theorem fillBuffer_zero (fuel : Nat) (buffer : Nat → Char) (i : Nat) :
    fillBuffer fuel 0 buffer i = (buffer, i, 0) := by
  cases fuel <;> simp [fillBuffer]

/-- The two loops of `zulon_print_i32` produce the digits that `Nat.toDigitsCore`
produces, whenever both have fuel for all the digits. -/
theorem fillBuffer_digits (fuel : Nat) :
    ∀ (n : Nat) (buffer : Nat → Char) (i g : Nat), 0 < n → n < 10 ^ fuel → n < 10 ^ g →
      ((List.range (fillBuffer fuel (n : Int) buffer i).2.1).map
          (fillBuffer fuel (n : Int) buffer i).1).reverse
        = Nat.toDigitsCore 10 g n ((List.range i).map buffer).reverse := by
  induction fuel with
  | zero => intro n _ _ _ h0 h1 _; simp at h1; omega
  | succ fuel ih =>
    intro n buffer i g h0 h1 h2
    cases g with
    | zero => simp at h2; omega
    | succ g =>
      have hpos : (n : Int) > 0 := by exact_mod_cast h0
      have hd : Int.tdiv (n : Int) 10 = ((n / 10 : Nat) : Int) := (Int.ofNat_tdiv n 10).symm
      rw [fillBuffer, if_pos hpos, digitChar_eq, hd, Nat.toDigitsCore]
      by_cases hz : n / 10 = 0
      · rw [if_pos hz, hz]
        simp only [Nat.cast_zero, fillBuffer_zero]
        exact range_map_update buffer i _
      · rw [if_neg hz, ih (n / 10) _ (i + 1) g (Nat.pos_of_ne_zero hz)
          (Nat.div_lt_of_lt_mul (by rw [pow_succ] at h1; omega))
          (Nat.div_lt_of_lt_mul (by rw [pow_succ] at h2; omega)), range_map_update]

theorem print_positive (out : List Char) (n : Nat) (h0 : 0 < n) (h1 : n < 10 ^ 32) :
    printBuffer (fillBuffer 32 (n : Int) (fun _ => '\x00') 0).1
        (fillBuffer 32 (n : Int) (fun _ => '\x00') 0).2.1 out
      = out ++ decimalDigits n := by
  rw [printBuffer_eq, fillBuffer_digits 32 n _ 0 (n + 1) h0 h1
    (lt_trans (Nat.lt_succ_self n) (Nat.lt_pow_self (by decide) _))]
  rfl

/-- Away from `INT_MIN`, `zulon_print_i32` emits exactly the decimal
representation of its argument. -/
theorem print_i32_decimal (out : List Char) (v : Int) (h1 : INT_MIN < v) (h2 : v ≤ INT_MAX) :
    zulon_print_i32 out v = out ++ decimalRepr v := by
  simp only [INT_MIN, INT_MAX] at h1 h2
  unfold zulon_print_i32 decimalRepr
  simp only
  rcases lt_trichotomy v 0 with hneg | rfl | hpos
  · obtain ⟨n, rfl⟩ := Int.exists_eq_neg_ofNat (le_of_lt hneg)
    have hn : n < 10 ^ 32 := lt_of_le_of_lt (show n ≤ 2147483647 by omega) (by norm_num)
    have hw : wrapInt32 (- -(n : Int)) = (n : Int) := by
      rw [wrapInt32_of_range _ (by omega) (by omega)]
      omega
    have hne : ¬ (n : Int) = 0 := by omega
    rw [if_pos hneg, if_pos hneg, hw, if_neg hne]
    simp only [decide_eq_true hneg, if_true]
    rw [print_positive _ n (by omega) hn, zulon_putchar, Int.natAbs_neg, Int.natAbs_ofNat]
    simp
  · rfl
  · obtain ⟨n, rfl⟩ := Int.eq_ofNat_of_zero_le (le_of_lt hpos)
    have hn : n < 10 ^ 32 := lt_of_le_of_lt (show n ≤ 2147483647 by omega) (by norm_num)
    have hnn : ¬ (n : Int) < 0 := by omega
    have hne : ¬ (n : Int) = 0 := by omega
    rw [if_neg hnn, if_neg hnn, if_neg hne]
    simp only [decide_eq_false hnn]
    rw [print_positive _ n (by omega) hn, Int.natAbs_ofNat]
    simp

/-- C10 (code defect): for `v = INT_MIN = -2^31` the negation `value = -value`
overflows and leaves `value` negative, the digit loop does not run, and
`zulon_print_i32` emits the single character `-` instead of `-2147483648`. -/
theorem C10_print_int_min :
    INT_MIN = -2147483648 ∧
    zulon_print_i32 [] (-2147483648) = ['-'] ∧
    zulon_println_i32 [] (-2147483648) = ['-', '\n'] ∧
    decimalRepr (-2147483648) = ['-', '2', '1', '4', '7', '4', '8', '3', '6', '4', '8'] ∧
    zulon_print_i32 [] (-2147483648) ≠ decimalRepr (-2147483648) := by
  decide

end Zulon
